import Mathlib

/-!
Verification of the StockCharts repository (`script.js`, `utils.js`,
`docs/performance.md`).

The JavaScript code is shallowly embedded: JS numbers are modelled as `ℚ`
(exact rational arithmetic; IEEE-754 rounding and `NaN` are outside the
model), JS strings as Lean `String` compared by UTF-16 code units via an
executable comparison, fallible code (property access on `undefined`,
thrown exceptions, rejected promises) as `Except String`, and
`Math.random()` as an explicit stream `rand : Nat → ℚ` of draws consumed in
program order.  Browser-supplied date formatting (`toISOString`,
`toLocaleDateString`, `getTime`) and the transcendental `Math.sin` /
`Math.PI` are passed in as parameters, since the claims never depend on
their values.
-/

namespace StockCharts

/-- Strict lexicographic comparison of two character lists by code unit,
as used by the default comparator of JavaScript `Array.prototype.sort()`. -/
def jsStrLtCore : List Char → List Char → Bool
  | [], [] => false
  | [], _ :: _ => true
  | _ :: _, [] => false
  | a :: as, b :: bs =>
    if a.toNat < b.toNat then true
    else if b.toNat < a.toNat then false
    else jsStrLtCore as bs

/-- JS string comparison `s <= t` (code-unit lexicographic order). -/
def jsStrLe (s t : String) : Bool := !(jsStrLtCore t.data s.data)

/-- The order used to sort Alpha Vantage date keys, as a proposition. -/
def strLeP (a b : String) : Prop := jsStrLe a b = true

instance : DecidableRel strLeP := fun a b =>
  inferInstanceAs (Decidable (jsStrLe a b = true))

/-- Whitespace stripped by JS `String.prototype.trim` (ASCII portion). -/
def jsIsWhitespace (c : Char) : Bool :=
  c.toNat = 32 || c.toNat = 9 || c.toNat = 10 || c.toNat = 13 ||
  c.toNat = 11 || c.toNat = 12

/-- JS `String.prototype.trim`. -/
def jsTrim (s : String) : String :=
  ⟨((s.data.dropWhile jsIsWhitespace).reverse.dropWhile jsIsWhitespace).reverse⟩

/-- JS `String.prototype.toUpperCase`, restricted to the ASCII letters the
validation regex can accept (other characters are left unchanged). -/
def jsToUpperChar (c : Char) : Char :=
  if 97 ≤ c.toNat ∧ c.toNat ≤ 122 then Char.ofNat (c.toNat - 32) else c

/-- Character-wise uppercasing of a JS string. -/
def jsToUpper (s : String) : String := ⟨s.data.map jsToUpperChar⟩

/-- Truthiness of an optional JS string (`undefined` and `""` are falsy). -/
def jsTruthyStr : Option String → Bool
  | none => false
  | some s => !(s = "" : Bool)

/-- JS `a || b` for numbers: `a` when present and nonzero, else `b`
(`0`, like `undefined`, is falsy). -/
def jsOrQopt (a : Option ℚ) (b : Option ℚ) : Option ℚ :=
  match a with
  | some x => if x = 0 then b else some x
  | none => b

/-- JS `a || b` for an integer `a` (`0` is falsy). -/
def jsOrInt (a b : Int) : Int := if a = 0 then b else a

/-- JS `Array.prototype.slice(n)` for a possibly negative start index. -/
def jsSliceStart (l : List α) (n : Int) : List α :=
  if 0 ≤ n then l.drop n.toNat else l.drop ((l.length : Int) + n).toNat

/-- JS `Array.prototype.slice(a, b)` for in-range non-negative indices. -/
def jsSlice (l : List α) (a b : Nat) : List α := (l.take b).drop a

/-- JS `l.slice(-n)` for `n ≥ 0`: the last `n` elements. -/
def takeLast (l : List α) (n : Nat) : List α := l.drop (l.length - n)

/-- JS array read `l[i]` for a possibly negative index
(out-of-range reads give `undefined`, i.e. `none`). -/
def jsIdx (l : List ℚ) (i : Int) : Option ℚ :=
  if 0 ≤ i then l[i.toNat]? else none

/-- `+x.toFixed(2)`: round to two decimals, ties away from zero as in the
ECMAScript `toFixed` specification. -/
def jsToFixed2 (q : ℚ) : ℚ :=
  if q < 0 then -((Int.floor ((-q) * 100 + 1 / 2) : ℚ) / 100)
  else ((Int.floor (q * 100 + 1 / 2) : ℚ) / 100)

/-- `arr[i] || 0` on a JS array that may hold `null` entries: a `null`,
absent, or zero entry yields `0`. -/
def idx0 (l : List (Option ℚ)) (i : Nat) : ℚ := (l[i]?.bind id).getD 0

/-- A canonical OHLCV point as built by the normalizers in `script.js`. -/
structure PricePoint where
  date : String
  open_ : ℚ
  high : ℚ
  low : ℚ
  close : ℚ
  volume : ℚ
deriving DecidableEq, Repr

/-- The object returned by `fetchStockData` and its helpers. -/
structure StockData where
  symbol : String
  prices : List PricePoint
  currentPrice : ℚ
  companyName : String
  change : ℚ
deriving DecidableEq, Repr

/-- One day of the Alpha Vantage `Time Series (Daily)` object; the numeric
strings `"1. open"` … `"5. volume"` are modelled by their parsed values. -/
structure AVDay where
  open_ : ℚ
  high : ℚ
  low : ℚ
  close : ℚ
  volume : ℚ
deriving DecidableEq, Repr

/-- The `Time Series (Daily)` object: date keys in property order. -/
abbrev AVSeries := List (String × AVDay)

/-- A parsed Alpha Vantage JSON response; absent fields are `none`. -/
structure AVResponse where
  errorMessage : Option String
  note : Option String
  information : Option String
  timeSeries : Option AVSeries
deriving Repr

/-- `chart.result[0].meta` of a Yahoo Finance chart response. -/
structure YahooMeta where
  regularMarketPrice : Option ℚ
  previousClose : Option ℚ
deriving DecidableEq, Repr

/-- `indicators.quote[0]`: the parallel OHLCV arrays, `null` entries kept. -/
structure YahooQuotes where
  open_ : List (Option ℚ)
  high : List (Option ℚ)
  low : List (Option ℚ)
  close : List (Option ℚ)
  volume : List (Option ℚ)
deriving DecidableEq, Repr

/-- One element of `chart.result` in a Yahoo Finance response. -/
structure YahooResult where
  timestamp : Option (List Int)
  quote : List YahooQuotes
  meta : YahooMeta
deriving Repr

/-- The `chart` object of a Yahoo Finance response. -/
structure YFChart where
  result : Option (List YahooResult)
deriving Repr

/-- A parsed Yahoo Finance JSON response. -/
structure YFResponse where
  chart : Option YFChart
deriving Repr

/-- The `dates.forEach` loop of `processAlphaVantageData`: look each selected
date up in the time-series object and build its OHLCV point.  A missing key
would be an `undefined` property access, i.e. a thrown `TypeError`. -/
def avBuildPrices : List String → AVSeries → Except String (List PricePoint)
  | [], _ => .ok []
  | d :: ds, ts =>
    match List.lookup d ts with
    | none => .error "TypeError: day data is undefined"
    | some day => do
      let rest ← avBuildPrices ds ts
      .ok (({ date := d, open_ := day.open_, high := day.high, low := day.low,
              close := day.close, volume := day.volume } : PricePoint) :: rest)

/-- `processAlphaVantageData(timeSeries, timeRange, symbol)` (script.js
1305-1332): sort the date keys, keep the last `timeRange`, build the points,
and read the last two closes (`prices[prices.length-1]` on an empty array
throws). -/
def processAlphaVantageData (timeSeries : AVSeries) (timeRange : Int)
    (symbol : String) : Except String StockData := do
  let dates := jsSliceStart
    (List.insertionSort strLeP (timeSeries.map Prod.fst)) (-timeRange)
  let prices ← avBuildPrices dates timeSeries
  match prices.getLast? with
  | none => .error "TypeError: cannot read close of undefined"
  | some lastP =>
    let currentPrice := lastP.close
    let previousPrice :=
      if 1 < prices.length then
        ((prices[prices.length - 2]?).map PricePoint.close).getD currentPrice
      else currentPrice
    .ok { symbol := symbol, prices := prices, currentPrice := currentPrice,
          companyName := symbol ++ " Inc.",
          change := currentPrice - previousPrice }

/-- The `timestamps.forEach` loop of `processYahooFinanceData` (script.js
1340-1350): zip each timestamp with the quote arrays at the same index,
coercing `null`/absent entries to `0` via `|| 0`.  When `quote[0]` is
`undefined` the first body run throws. -/
def buildYahooPrices (tsISO : Int → String) (q : Option YahooQuotes) :
    List Int → Nat → Except String (List PricePoint)
  | [], _ => .ok []
  | t :: ts, i =>
    match q with
    | none => .error "TypeError: quote array is undefined"
    | some quotes => do
      let rest ← buildYahooPrices tsISO q ts (i + 1)
      .ok (({ date := tsISO t, open_ := idx0 quotes.open_ i,
              high := idx0 quotes.high i, low := idx0 quotes.low i,
              close := idx0 quotes.close i,
              volume := idx0 quotes.volume i } : PricePoint) :: rest)

/-- `prices[prices.length - 1].close` (throws on an empty array). -/
def lastCloseE (prices : List PricePoint) : Except String ℚ :=
  match prices.getLast? with
  | none => .error "TypeError: cannot read close of undefined"
  | some p => .ok p.close

/-- `prices.length > 1 ? prices[prices.length - 2].close : cur`. -/
def prevCloseE (prices : List PricePoint) (cur : ℚ) : Except String ℚ :=
  if 1 < prices.length then
    match prices[prices.length - 2]? with
    | some p => .ok p.close
    | none => .error "TypeError: cannot read close of undefined"
  else .ok cur

/-- `result.meta.regularMarketPrice || prices[prices.length - 1].close`:
a truthy (present, nonzero) meta price short-circuits, otherwise the last
close is read (throwing on an empty array). -/
def yahooCurrentPrice (meta : YahooMeta) (prices : List PricePoint) :
    Except String ℚ :=
  match meta.regularMarketPrice with
  | some p => if p = 0 then lastCloseE prices else .ok p
  | none => lastCloseE prices

/-- `result.meta.previousClose || (prices.length > 1 ?
prices[prices.length - 2].close : currentPrice)`. -/
def yahooPreviousPrice (meta : YahooMeta) (prices : List PricePoint)
    (cur : ℚ) : Except String ℚ :=
  match meta.previousClose with
  | some p => if p = 0 then prevCloseE prices cur else .ok p
  | none => prevCloseE prices cur

/-- `processYahooFinanceData(result, symbol)` (script.js 1335-1363). -/
def processYahooFinanceData (result : YahooResult) (symbol : String)
    (tsISO : Int → String) : Except String StockData := do
  let timestamps := result.timestamp.getD []
  let prices ← buildYahooPrices tsISO result.quote.head? timestamps 0
  let currentPrice ← yahooCurrentPrice result.meta prices
  let previousPrice ← yahooPreviousPrice result.meta prices currentPrice
  .ok { symbol := symbol, prices := prices, currentPrice := currentPrice,
        companyName := symbol ++ " Corporation",
        change := currentPrice - previousPrice }

/-- The generation loop of `generateMockStockData` (script.js 1371-1387),
`i` running from `timeRange - 1` down to `0`.  The first argument of the
recursion counts the remaining iterations (current `i` is that count minus
one); `k` is the number of completed iterations and indexes the five random
draws each iteration consumes in program order. -/
def mockLoop (basePrice : ℚ) (rand : Nat → ℚ) (today : Int)
    (dayISO : Int → String) : Nat → Nat → List PricePoint
  | 0, _ => []
  | n + 1, k =>
    let variation := (rand (5 * k + 1) - 1 / 2) * 10
    let price := max 1 (basePrice + variation)
    { date := dayISO (today - (n : Int)),
      open_ := price * (99 / 100 + rand (5 * k + 2) * (2 / 100)),
      high := price * (101 / 100 + rand (5 * k + 3) * (2 / 100)),
      low := price * (98 / 100 + rand (5 * k + 4) * (2 / 100)),
      close := price,
      volume := (Int.floor (rand (5 * k + 5) * 1000000) : ℚ) + 100000 } ::
      mockLoop basePrice rand today dayISO n (k + 1)

/-- `generateMockStockData(symbol, timeRange)` (script.js 1366-1397).
`rand 0` is the base-price draw; `today` is the current day and `dayISO`
the browser's ISO date formatting.  Reading the last element of an empty
`mockData` array throws. -/
def generateMockStockData (rand : Nat → ℚ) (today : Int)
    (dayISO : Int → String) (symbol : String) (timeRange : Int) :
    Except String StockData :=
  let basePrice := rand 0 * 200 + 50
  let mockData := mockLoop basePrice rand today dayISO timeRange.toNat 0
  match mockData.getLast? with
  | none => .error "TypeError: cannot read close of undefined"
  | some lastP =>
    .ok { symbol := symbol, prices := mockData, currentPrice := lastP.close,
          companyName := symbol ++ " Corporation",
          change :=
            if 1 < mockData.length then
              lastP.close -
                (((mockData[mockData.length - 2]?).map PricePoint.close).getD 0)
            else 0 }

/-- `fetchStockDataAlphaVantage(symbol, timeRange)` (script.js 1265-1286),
applied to the outcome of its network fetch: a rejected fetch re-throws, a
truthy `Error Message` or `Note` field throws, a missing time series
throws, otherwise the response is normalized. -/
def fetchStockDataAlphaVantage (resp : Except String AVResponse)
    (timeRange : Int) (symbol : String) : Except String StockData :=
  match resp with
  | .error e => .error e
  | .ok data =>
    if jsTruthyStr data.errorMessage then
      .error ("Stock symbol " ++ symbol ++ " not found")
    else if jsTruthyStr data.note then
      .error "API call frequency exceeded. Please try again later."
    else
      match data.timeSeries with
      | none => .error ("No data available for " ++ symbol)
      | some ts => processAlphaVantageData ts timeRange symbol

/-- `fetchStockDataYahoo(symbol, timeRange)` (script.js 1289-1302), applied
to the outcome of its network fetch: missing `chart`, missing `result`, or
an empty `result` array throws, otherwise `result[0]` is normalized. -/
def fetchStockDataYahoo (resp : Except String YFResponse) (symbol : String)
    (tsISO : Int → String) : Except String StockData :=
  match resp with
  | .error e => .error e
  | .ok data =>
    match data.chart with
    | none => .error ("No data available for " ++ symbol)
    | some ch =>
      match ch.result with
      | none => .error ("No data available for " ++ symbol)
      | some [] => .error ("No data available for " ++ symbol)
      | some (r :: _) => processYahooFinanceData r symbol tsISO

/-- `fetchStockData(symbol, timeRange)` (script.js 1244-1262): try Alpha
Vantage, on any exception try Yahoo Finance, on any exception fall back to
the mock generator (whose own exceptions are not caught). -/
def fetchStockData (avResp : Except String AVResponse)
    (yfResp : Except String YFResponse) (rand : Nat → ℚ) (today : Int)
    (dayISO : Int → String) (tsISO : Int → String) (symbol : String)
    (timeRange : Int) : Except String StockData :=
  match fetchStockDataAlphaVantage avResp timeRange symbol with
  | .ok d => .ok d
  | .error _ =>
    match fetchStockDataYahoo yfResp symbol tsISO with
    | .ok d => .ok d
    | .error _ => generateMockStockData rand today dayISO symbol timeRange

/-- The character class `[A-Z]`. -/
def isUpperAZ (c : Char) : Bool :=
  decide (65 ≤ c.toNat) && decide (c.toNat ≤ 90)

/-- The regex test `/^[A-Z]{1,5}$/.test(s)` (utils.js 127-128). -/
def symbolRegexTest (s : String) : Bool :=
  decide (1 ≤ s.data.length) && decide (s.data.length ≤ 5) &&
    s.data.all isUpperAZ

/-- `isValidStockSymbol(symbol)` (utils.js 118-129) on a string argument:
falsy (empty) strings are rejected outright, otherwise the trimmed,
uppercased symbol is tested against `/^[A-Z]{1,5}$/`. -/
def isValidStockSymbol (symbol : String) : Bool :=
  if symbol = "" then false
  else symbolRegexTest (jsToUpper (jsTrim symbol))

/-- Outcome of the input-validation prefix of `searchStock`. -/
inductive SearchOutcome where
  | rejected (message : String)
  | fetch (symbol : String)
deriving DecidableEq, Repr

/-- The validation gate of `searchStock()` (script.js 46-63): trim and
uppercase the raw input, reject the empty symbol, reject a symbol failing
`isValidStockSymbol`, otherwise proceed to fetch. -/
def searchStockGate (input : String) : SearchOutcome :=
  let symbol := jsToUpper (jsTrim input)
  if symbol = "" then .rejected "Please enter a stock symbol"
  else if !(isValidStockSymbol symbol) then
    .rejected "Please enter a valid stock symbol (1-5 letters)"
  else .fetch symbol

/-- The quote object built by `searchStockAlphaVantage` and
`searchStockMockData`; fields holding `undefined` are `none`
(`Math.max()` / `Math.min()` of an empty spread, modelled as `none`,
never occurs on the reachable paths the claims use). -/
structure AVQuote where
  longName : String
  shortName : String
  regularMarketPrice : Option ℚ
  regularMarketPreviousClose : Option ℚ
  regularMarketDayHigh : Option ℚ
  regularMarketDayLow : Option ℚ
deriving DecidableEq, Repr

/-- The `dates.forEach` loop of `searchStockAlphaVantage` (script.js
144-147), close prices only. -/
def avCloses : List String → AVSeries → Except String (List ℚ)
  | [], _ => .ok []
  | d :: ds, ts =>
    match List.lookup d ts with
    | none => .error "TypeError: day data is undefined"
    | some day => do
      let rest ← avCloses ds ts
      .ok (day.close :: rest)

/-- The data-processing part of `searchStockAlphaVantage(symbol, timeRange)`
(script.js 104-180), returning the close-price series and the quote object
it builds; chart rendering is outside the model.  `dayHigh`/`dayLow` are
`Math.max`/`Math.min` over `prices.slice(-5)`. -/
def searchStockAlphaVantage (resp : Except String AVResponse)
    (timeRange : Int) (symbol : String) :
    Except String (List ℚ × AVQuote) :=
  match resp with
  | .error e => .error e
  | .ok data =>
    if jsTruthyStr data.errorMessage then .error "Alpha Vantage Error"
    else if jsTruthyStr data.note then .error "Alpha Vantage Rate Limit"
    else if jsTruthyStr data.information then .error "Alpha Vantage Info"
    else
      match data.timeSeries with
      | none => .error "No time series data available"
      | some ts => do
        let dates := jsSliceStart
          (List.insertionSort strLeP (ts.map Prod.fst)) (-timeRange)
        let prices ← avCloses dates ts
        let currentPrice := prices.getLast?
        let previousPrice :=
          jsOrQopt (jsIdx prices ((prices.length : Int) - 2)) currentPrice
        .ok (prices,
          { longName := symbol ++ " Inc.", shortName := symbol,
            regularMarketPrice := currentPrice,
            regularMarketPreviousClose := previousPrice,
            regularMarketDayHigh := (takeLast prices 5).max?,
            regularMarketDayLow := (takeLast prices 5).min? })

/-- The generation loop of `searchStockMockData` (script.js 262-274), `i`
running from `validTimeRange` down to `0`; the recursion argument counts
the remaining iterations, so the current `i` is that count minus one and
the iteration index is `vtr - i`.  `msin` and `piv` stand for `Math.sin`
and `Math.PI`; each price is clamped by `Math.max(price, 1)`. -/
def searchMockLoop (basePrice : ℚ) (rand : Nat → ℚ) (msin : ℚ → ℚ)
    (piv : ℚ) (vtr : Nat) (today : Int) (dayTS : Int → Int) :
    Nat → List (Int × ℚ)
  | 0 => []
  | n + 1 =>
    let trendFactor := ((vtr : ℚ) - (n : ℚ)) / (vtr : ℚ)
    let volatility := (rand (vtr - n + 1) - 1 / 2) * (15 / 100)
    let trend := msin (trendFactor * piv) * (1 / 10)
    let price := basePrice * (1 + trend + volatility)
    (dayTS (today - (n : Int)), max price 1) ::
      searchMockLoop basePrice rand msin piv vtr today dayTS n

/-- The chart/quote data built by `searchStockMockData`. -/
structure MockChartResult where
  timestamps : List Int
  closes : List ℚ
  currentPrice : Option ℚ
  previousPrice : Option ℚ
  quote : AVQuote
deriving Repr

/-- `searchStockMockData(symbol, timeRange)` (script.js 251-306):
`validTimeRange = Math.max(timeRange || 30, 7)`, one point per
`i = validTimeRange … 0` (ending today), prices clamped positive.
`dayTS` is the browser timestamp of the day `i` days before today. -/
def searchStockMockData (rand : Nat → ℚ) (msin : ℚ → ℚ) (piv : ℚ)
    (today : Int) (dayTS : Int → Int) (symbol : String) (timeRange : Int) :
    MockChartResult :=
  let basePrice := 50 + rand 0 * 200
  let validTimeRange := max (jsOrInt timeRange 30) 7
  let pts := searchMockLoop basePrice rand msin piv validTimeRange.toNat
    today dayTS (validTimeRange.toNat + 1)
  let timestamps := pts.map Prod.fst
  let prices := pts.map Prod.snd
  let currentPrice := prices.getLast?
  let previousPrice :=
    jsOrQopt (jsIdx prices ((prices.length : Int) - 2)) currentPrice
  let quote : AVQuote :=
    { longName := symbol ++ " Corporation", shortName := symbol,
      regularMarketPrice := currentPrice,
      regularMarketPreviousClose := previousPrice,
      regularMarketDayHigh := ((takeLast prices 5).max?).map (· * (102 / 100)),
      regularMarketDayLow := ((takeLast prices 5).min?).map (· * (98 / 100)) }
  { timestamps := timestamps, closes := prices,
    currentPrice := currentPrice, previousPrice := previousPrice,
    quote := quote }

/-- The label/price extraction loop of `createChart` (script.js 356-362):
for each index of `timestamp`, keep the pair only when `closes[i]` is
neither `null` nor `undefined`. -/
def createChartPoints : List Int → List (Option ℚ) → List (Int × ℚ)
  | [], _ => []
  | _ :: ts, [] => createChartPoints ts []
  | _ :: ts, none :: cs => createChartPoints ts cs
  | t :: ts, some c :: cs => (t, c) :: createChartPoints ts cs

/-- A data point as consumed by `movingAverage` (utils.js): only its
`price` field is read. -/
structure PricedPoint where
  price : ℚ
deriving DecidableEq, Repr

/-- `movingAverage(data, windowSize)` (utils.js 206-218): `null` for the
first `windowSize - 1` indices, then the window average rounded with
`+avg.toFixed(2)`.  (For `windowSize = 0` the JS code divides `0/0`,
producing `NaN`, which the rational model cannot represent; all claims
assume `windowSize ≥ 1`.) -/
def movingAverage (data : List PricedPoint) (windowSize : Nat) :
    List (Option ℚ) :=
  (List.range data.length).map fun i =>
    if i < windowSize - 1 then none
    else
      let window := jsSlice data (i + 1 - windowSize) (i + 1)
      some (jsToFixed2
        ((window.foldl (fun sum d => sum + d.price) 0) / (window.length : ℚ)))

/-- One stored cache entry of `ApiCache` (docs/performance.md 1203-1233). -/
structure CacheItem (α : Type) where
  data : α
  timestamp : Int
deriving DecidableEq, Repr

/-- The `ApiCache` of docs/performance.md: a keyed map plus a TTL. -/
structure ApiCache (α : Type) where
  cache : List (String × CacheItem α)
  ttl : Int
deriving Repr

/-- JS `Map.prototype.set`: overwrite the entry for `k` or append it. -/
def jsMapSet (l : List (String × β)) (k : String) (v : β) :
    List (String × β) :=
  match l with
  | [] => [(k, v)]
  | (k0, v0) :: rest =>
    if k0 = k then (k, v) :: rest else (k0, v0) :: jsMapSet rest k v

/-- JS `Map.prototype.delete`: remove the entry for `k`. -/
def jsMapDelete (l : List (String × β)) (k : String) :
    List (String × β) :=
  match l with
  | [] => []
  | (k0, v0) :: rest =>
    if k0 = k then rest else (k0, v0) :: jsMapDelete rest k

/-- `ApiCache.set(key, data)`, with `Date.now()` passed as `now`. -/
def ApiCache.set (c : ApiCache α) (key : String) (dat : α) (now : Int) :
    ApiCache α :=
  { c with cache := jsMapSet c.cache key ⟨dat, now⟩ }

/-- `ApiCache.get(key)`, with `Date.now()` passed as `now`: a missing key
gives `null`; an entry with `now - timestamp > ttl` is deleted and gives
`null`; otherwise the stored data is returned unchanged. -/
def ApiCache.get (c : ApiCache α) (key : String) (now : Int) :
    Option α × ApiCache α :=
  match List.lookup key c.cache with
  | none => (none, c)
  | some item =>
    if now - item.timestamp > c.ttl then
      (none, { c with cache := jsMapDelete c.cache key })
    else (some item.data, c)


/-! ## Order-theoretic facts about the JS string comparison -/

theorem charToNat_inj {a b : Char} (h : a.toNat = b.toNat) : a = b := by
  have ha := Char.ofNat_toNat a
  have hb := Char.ofNat_toNat b
  rw [← ha, ← hb, h]

theorem jsStrLtCore_false_elim {x y : Char} {xs ys : List Char}
    (h : jsStrLtCore (x :: xs) (y :: ys) = false) :
    ¬ x.toNat < y.toNat ∧
      (¬ y.toNat < x.toNat → jsStrLtCore xs ys = false) := by
  simp only [jsStrLtCore] at h
  split_ifs at h with g1 g2
  · exact ⟨g1, fun hc => absurd g2 hc⟩
  · exact ⟨g1, fun _ => h⟩

theorem jsStrLtCore_true_elim {x y : Char} {xs ys : List Char}
    (h : jsStrLtCore (x :: xs) (y :: ys) = true) :
    x.toNat < y.toNat ∨
      (x.toNat = y.toNat ∧ jsStrLtCore xs ys = true) := by
  simp only [jsStrLtCore] at h
  split_ifs at h with g1 g2
  · exact Or.inl g1
  · exact Or.inr ⟨by omega, h⟩

theorem jsStrLtCore_eq_of_not_lt : ∀ s t : List Char,
    jsStrLtCore s t = false → jsStrLtCore t s = false → s = t := by
  intro s
  induction s with
  | nil =>
    intro t h1 _
    cases t with
    | nil => rfl
    | cons b bs => simp [jsStrLtCore] at h1
  | cons a as ih =>
    intro t h1 h2
    cases t with
    | nil => simp [jsStrLtCore] at h2
    | cons b bs =>
      have e1 := jsStrLtCore_false_elim h1
      have e2 := jsStrLtCore_false_elim h2
      have hab : a = b := charToNat_inj (by omega)
      subst hab
      rw [ih bs (e1.2 (by omega)) (e2.2 (by omega))]

theorem jsStrLtCore_asymm : ∀ s t : List Char,
    jsStrLtCore s t = true → jsStrLtCore t s = true → False := by
  intro s
  induction s with
  | nil =>
    intro t h1 h2
    cases t with
    | nil => simp [jsStrLtCore] at h1
    | cons b bs => simp [jsStrLtCore] at h2
  | cons a as ih =>
    intro t h1 h2
    cases t with
    | nil => simp [jsStrLtCore] at h1
    | cons b bs =>
      rcases jsStrLtCore_true_elim h1 with g1 | ⟨e1, r1⟩
      · rcases jsStrLtCore_true_elim h2 with g2 | ⟨e2, _⟩ <;> omega
      · rcases jsStrLtCore_true_elim h2 with g2 | ⟨_, r2⟩
        · omega
        · exact ih bs r1 r2

theorem jsStrLtCore_le_trans : ∀ s t u : List Char,
    jsStrLtCore t s = false → jsStrLtCore u t = false →
    jsStrLtCore u s = false := by
  intro s
  induction s with
  | nil =>
    intro t u _ _
    cases u <;> rfl
  | cons a as ih =>
    intro t u h1 h2
    cases t with
    | nil => simp [jsStrLtCore] at h1
    | cons b bs =>
      cases u with
      | nil => simp [jsStrLtCore] at h2
      | cons c cs =>
        have e1 := jsStrLtCore_false_elim h1
        have e2 := jsStrLtCore_false_elim h2
        simp only [jsStrLtCore]
        rw [if_neg (show ¬ c.toNat < a.toNat by omega)]
        by_cases hac : a.toNat < c.toNat
        · rw [if_pos hac]
        · rw [if_neg hac]
          exact ih bs cs (e1.2 (by omega)) (e2.2 (by omega))

instance : IsTotal String strLeP := by
  constructor
  intro a b
  unfold strLeP jsStrLe
  by_cases h : jsStrLtCore b.data a.data = true
  · right
    rcases Bool.eq_false_or_eq_true (jsStrLtCore a.data b.data) with h2 | h2
    · exact (jsStrLtCore_asymm _ _ h2 h).elim
    · simp [h2]
  · left
    simp [Bool.not_eq_true] at h
    simp [h]

instance : IsTrans String strLeP := by
  constructor
  intro a b c h1 h2
  unfold strLeP jsStrLe at h1 h2 ⊢
  simp only [Bool.not_eq_true', Bool.not_eq_false] at h1 h2 ⊢
  exact jsStrLtCore_le_trans a.data b.data c.data h1 h2

instance : IsAntisymm String strLeP := by
  constructor
  intro a b h1 h2
  unfold strLeP jsStrLe at h1 h2
  simp only [Bool.not_eq_true', Bool.not_eq_false] at h1 h2
  have := jsStrLtCore_eq_of_not_lt a.data b.data h2 h1
  cases a
  cases b
  exact congrArg String.mk this

instance : IsRefl String strLeP := by
  constructor
  intro a
  rcases total_of strLeP a a with h | h <;> exact h

/-! ## Helper lemmas for movingAverage -/

theorem foldl_add_price (l : List PricedPoint) (s : ℚ) :
    l.foldl (fun sum d => sum + d.price) s = s + (l.map PricedPoint.price).sum := by
  induction l generalizing s with
  | nil => simp
  | cons x xs ih => simp [ih, add_assoc]

theorem jsSlice_window (data : List PricedPoint) (w i : Nat) (hw : 1 ≤ w)
    (hwi : w - 1 ≤ i) (hi : i < data.length) :
    jsSlice data (i + 1 - w) (i + 1) = (data.drop (i + 1 - w)).take w ∧
    (jsSlice data (i + 1 - w) (i + 1)).length = w := by
  have hw1 : w ≤ i + 1 := by omega
  have heq : jsSlice data (i + 1 - w) (i + 1) = (data.drop (i + 1 - w)).take w := by
    unfold jsSlice
    rw [List.drop_take]
    congr 1
    omega
  refine ⟨heq, ?_⟩
  rw [heq, List.length_take, List.length_drop]
  omega

/-- C10: for every list of points with numeric price fields and every window
size `w ≥ 1`, `movingAverage` returns a list of the same length as the input,
whose first `w - 1` entries are null and whose entry at each index
`i ≥ w - 1` is the arithmetic mean of the prices at indices `i - w + 1 … i`,
rounded to two decimals. -/
theorem movingAverage_spec (data : List PricedPoint) (w : Nat) (hw : 1 ≤ w) :
    (movingAverage data w).length = data.length ∧
    (∀ i, i < data.length → i < w - 1 →
      (movingAverage data w)[i]? = some none) ∧
    (∀ i, i < data.length → w - 1 ≤ i →
      (movingAverage data w)[i]? = some (some (jsToFixed2
        ((((data.map PricedPoint.price).drop (i + 1 - w)).take w).sum /
          ((w : Nat) : ℚ))))) := by
  refine ⟨by simp [movingAverage], ?_, ?_⟩
  · intro i hi hlt
    simp [movingAverage, List.getElem?_map, List.getElem?_range, hi, hlt]
  · intro i hi hle
    have hnot : ¬ i < w - 1 := by omega
    obtain ⟨hwin, hlen⟩ := jsSlice_window data w i hw hle hi
    simp only [movingAverage, List.getElem?_map]
    rw [List.getElem?_range hi]
    simp only [Option.map]
    rw [if_neg hnot, hlen, hwin, foldl_add_price, zero_add,
      List.map_take, List.map_drop]

/-- Witness for `movingAverage_spec` at `data = [1, 2, 3]`, `w = 2`:
the moving average is `[null, 1.5, 2.5]`. -/
theorem movingAverage_spec_witness :
    (movingAverage [⟨1⟩, ⟨2⟩, ⟨3⟩] 2).length = 3 ∧
    (movingAverage [⟨1⟩, ⟨2⟩, ⟨3⟩] 2)[0]? = some none ∧
    (movingAverage [⟨1⟩, ⟨2⟩, ⟨3⟩] 2)[2]? = some (some (5 / 2)) := by
  obtain ⟨h1, h2, h3⟩ := movingAverage_spec [⟨1⟩, ⟨2⟩, ⟨3⟩] 2 (by norm_num)
  refine ⟨h1, h2 0 (by norm_num) (by norm_num), ?_⟩
  rw [h3 2 (by norm_num) (by norm_num)]
  norm_num [jsToFixed2]

/-! ## Helper lemmas for the ApiCache map operations -/

theorem lookup_cons_self (k : String) (v0 : β) (rest : List (String × β)) :
    List.lookup k ((k, v0) :: rest) = some v0 := by
  simp [List.lookup]

theorem lookup_cons_ne (k k0 : String) (v0 : β) (rest : List (String × β))
    (h : ¬ k = k0) :
    List.lookup k ((k0, v0) :: rest) = List.lookup k rest := by
  have hb : (k == k0) = false := beq_eq_false_iff_ne.mpr h
  simp [List.lookup, hb]

theorem lookup_jsMapSet_self (l : List (String × β)) (k : String) (v : β) :
    List.lookup k (jsMapSet l k v) = some v := by
  induction l with
  | nil => simp [jsMapSet, List.lookup]
  | cons p rest ih =>
    obtain ⟨k0, v0⟩ := p
    by_cases h : k0 = k
    · subst h
      simp [jsMapSet, lookup_cons_self]
    · rw [jsMapSet, if_neg h, lookup_cons_ne k k0 v0 _ (Ne.symm h), ih]

theorem mem_keys_jsMapSet (l : List (String × β)) (k : String) (v : β)
    (x : String) :
    x ∈ (jsMapSet l k v).map Prod.fst ↔ x ∈ l.map Prod.fst ∨ x = k := by
  induction l with
  | nil => simp [jsMapSet]
  | cons p rest ih =>
    obtain ⟨k0, v0⟩ := p
    by_cases h : k0 = k
    · subst h
      rw [jsMapSet, if_pos rfl]
      simp
      tauto
    · rw [jsMapSet, if_neg h]
      simp [ih]
      tauto

theorem nodup_keys_jsMapSet (l : List (String × β)) (k : String) (v : β)
    (h : (l.map Prod.fst).Nodup) :
    ((jsMapSet l k v).map Prod.fst).Nodup := by
  induction l with
  | nil => simp [jsMapSet]
  | cons p rest ih =>
    obtain ⟨k0, v0⟩ := p
    simp only [List.map_cons, List.nodup_cons] at h
    by_cases hk : k0 = k
    · subst hk
      rw [jsMapSet, if_pos rfl]
      simp only [List.map_cons, List.nodup_cons]
      exact h
    · rw [jsMapSet, if_neg hk]
      simp only [List.map_cons, List.nodup_cons]
      refine ⟨?_, ih h.2⟩
      rw [mem_keys_jsMapSet]
      push_neg
      exact ⟨h.1, hk⟩

theorem lookup_eq_none_of_not_mem_keys (l : List (String × β)) (k : String)
    (h : k ∉ l.map Prod.fst) : List.lookup k l = none := by
  induction l with
  | nil => simp [List.lookup]
  | cons p rest ih =>
    obtain ⟨k0, v0⟩ := p
    simp only [List.map_cons, List.mem_cons] at h
    push_neg at h
    rw [lookup_cons_ne k k0 v0 rest h.1]
    exact ih h.2

theorem lookup_jsMapDelete_self (l : List (String × β)) (k : String)
    (h : (l.map Prod.fst).Nodup) :
    List.lookup k (jsMapDelete l k) = none := by
  induction l with
  | nil => simp [jsMapDelete, List.lookup]
  | cons p rest ih =>
    obtain ⟨k0, v0⟩ := p
    simp only [List.map_cons, List.nodup_cons] at h
    by_cases hk : k0 = k
    · subst hk
      rw [jsMapDelete, if_pos rfl]
      exact lookup_eq_none_of_not_mem_keys rest k0 h.1
    · rw [jsMapDelete, if_neg hk,
        lookup_cons_ne k k0 v0 _ (Ne.symm hk)]
      exact ih h.2

/-- C6: for every cache with the JS `Map` invariant of duplicate-free keys,
every key, stored value and store time, reading the key before TTL expiry
(`now - timestamp ≤ ttl`) returns the identical stored data and leaves the
cache unchanged, while reading after TTL expiry (`now - timestamp > ttl`)
returns `null` and the entry is deleted from the cache state the read
returns (lazy expiry on read). -/
theorem apiCache_ttl_spec {α : Type} (c : ApiCache α) (key : String)
    (dat : α) (tSet now : Int) (hnd : (c.cache.map Prod.fst).Nodup) :
    (now - tSet ≤ c.ttl →
      ((c.set key dat tSet).get key now).1 = some dat ∧
      ((c.set key dat tSet).get key now).2 = c.set key dat tSet) ∧
    (now - tSet > c.ttl →
      ((c.set key dat tSet).get key now).1 = none ∧
      List.lookup key (((c.set key dat tSet).get key now).2).cache = none) := by
  have hl : List.lookup key (c.set key dat tSet).cache =
      some (⟨dat, tSet⟩ : CacheItem α) := lookup_jsMapSet_self ..
  constructor
  · intro hle
    simp only [ApiCache.get, hl]
    rw [if_neg (show ¬ now - (⟨dat, tSet⟩ : CacheItem α).timestamp >
        (c.set key dat tSet).ttl by simp [ApiCache.set]; omega)]
    exact ⟨rfl, rfl⟩
  · intro hgt
    simp only [ApiCache.get, hl]
    rw [if_pos (show now - (⟨dat, tSet⟩ : CacheItem α).timestamp >
        (c.set key dat tSet).ttl by simp [ApiCache.set]; omega)]
    refine ⟨rfl, ?_⟩
    exact lookup_jsMapDelete_self _ key
      (nodup_keys_jsMapSet c.cache key _ hnd)

/-- Witness for `apiCache_ttl_spec`: an empty cache with the default TTL of
300000 ms, key `"AAPL-7d"`, value `42` stored at time `0`, read at times
`1000` (fresh) and `300001` (expired). -/
theorem apiCache_ttl_spec_witness :
    ((((⟨[], 300000⟩ : ApiCache Nat).set "AAPL-7d" 42 0).get
        "AAPL-7d" 1000).1 = some 42) ∧
    ((((⟨[], 300000⟩ : ApiCache Nat).set "AAPL-7d" 42 0).get
        "AAPL-7d" 300001).1 = none) := by
  obtain ⟨h1, _⟩ :=
    apiCache_ttl_spec (⟨[], 300000⟩ : ApiCache Nat) "AAPL-7d" 42 0 1000
      (by simp)
  obtain ⟨_, h2⟩ :=
    apiCache_ttl_spec (⟨[], 300000⟩ : ApiCache Nat) "AAPL-7d" 42 0 300001
      (by simp)
  exact ⟨(h1 (by norm_num)).1, (h2 (by norm_num)).1⟩

/-! ## C9: input validation -/

/-- Specification predicate from the claim: a string of 1 to 5 letters
`A`-`Z` (code points 65-90). -/
def isLettersAZ1to5 (s : String) : Prop :=
  1 ≤ s.data.length ∧ s.data.length ≤ 5 ∧
    ∀ c ∈ s.data, 65 ≤ c.toNat ∧ c.toNat ≤ 90

instance (s : String) : Decidable (isLettersAZ1to5 s) := by
  unfold isLettersAZ1to5
  infer_instance

theorem symbolRegexTest_iff (t : String) :
    symbolRegexTest t = true ↔ isLettersAZ1to5 t := by
  simp only [symbolRegexTest, isLettersAZ1to5, isUpperAZ, Bool.and_eq_true,
    decide_eq_true_iff, List.all_eq_true]
  tauto

/-- C9: `isValidStockSymbol` returns `true` iff the trimmed, uppercased
input is a string of 1 to 5 letters `A`-`Z`; the `searchStock` entry point
rejects (shows an error and issues no fetch for) the empty symbol and every
symbol failing the validation, and proceeds to fetch otherwise. -/
theorem searchStock_validation :
    (∀ s : String,
      isValidStockSymbol s = true ↔ isLettersAZ1to5 (jsToUpper (jsTrim s))) ∧
    (∀ input : String,
      (jsToUpper (jsTrim input) = "" →
        searchStockGate input = .rejected "Please enter a stock symbol") ∧
      (isValidStockSymbol (jsToUpper (jsTrim input)) = false →
        ∃ m, searchStockGate input = .rejected m) ∧
      (jsToUpper (jsTrim input) ≠ "" →
        isValidStockSymbol (jsToUpper (jsTrim input)) = true →
        searchStockGate input = .fetch (jsToUpper (jsTrim input)))) := by
  constructor
  · intro s
    by_cases hs : s = ""
    · subst hs
      have h0 : jsToUpper (jsTrim "") = "" := rfl
      rw [h0]
      simp [isValidStockSymbol, isLettersAZ1to5]
    · rw [isValidStockSymbol, if_neg hs]
      exact symbolRegexTest_iff _
  · intro input
    refine ⟨?_, ?_, ?_⟩
    · intro h
      simp [searchStockGate, h]
    · intro h
      by_cases he : jsToUpper (jsTrim input) = ""
      · exact ⟨"Please enter a stock symbol", by simp [searchStockGate, he]⟩
      · exact ⟨"Please enter a valid stock symbol (1-5 letters)",
          by simp [searchStockGate, he, h]⟩
    · intro he hv
      simp [searchStockGate, he, hv]

/-- Witness for `searchStock_validation`: `" aapl "` trims and uppercases
to `"AAPL"` and is accepted; `""` and `"TOOLONG"` are rejected. -/
theorem searchStock_validation_witness :
    isValidStockSymbol " aapl " = true ∧
    searchStockGate " aapl " = .fetch "AAPL" ∧
    searchStockGate "" = .rejected "Please enter a stock symbol" ∧
    (∃ m, searchStockGate "TOOLONG" = .rejected m) := by
  obtain ⟨hiff, hgate⟩ := searchStock_validation
  have e1 : jsToUpper (jsTrim " aapl ") = "AAPL" := by decide
  refine ⟨(hiff " aapl ").mpr (by decide), ?_, ?_, ?_⟩
  · have h2 := (hgate " aapl ").2.2 (by decide) (by decide)
    rw [e1] at h2
    exact h2
  · exact (hgate "").1 (by decide)
  · exact (hgate "TOOLONG").2.1 (by decide)

/-! ## C3: null handling in the Yahoo chart extraction and normalizer -/

theorem createChartPoints_zip (ts : List Int) (cs : List (Option ℚ))
    (h : cs.length = ts.length) :
    createChartPoints ts cs =
      (ts.zip cs).filterMap (fun p => p.2.map (fun c => (p.1, c))) := by
  induction ts generalizing cs with
  | nil => cases cs <;> simp [createChartPoints]
  | cons t ts ih =>
    cases cs with
    | nil => simp at h
    | cons c cs =>
      cases c with
      | none => simp [createChartPoints, ih cs (by simpa using h)]
      | some v => simp [createChartPoints, ih cs (by simpa using h)]

/-- C3 counterexample: on a Yahoo result whose `timestamp` array has length
5 and whose `close` array has a single `null` at index 2, the normalizer
`processYahooFinanceData` does not skip the null entry — it yields 5 output
points, not the 4 the claim states. -/
theorem processYahoo_null_not_skipped :
    (processYahooFinanceData
        { timestamp := some [1, 2, 3, 4, 5],
          quote := [{ open_ := [some 10, some 11, none, some 13, some 14],
                      high := [some 10, some 11, none, some 13, some 14],
                      low := [some 10, some 11, none, some 13, some 14],
                      close := [some 10, some 11, none, some 13, some 14],
                      volume := [some 10, some 11, none, some 13, some 14] }],
          meta := { regularMarketPrice := some 14,
                    previousClose := some 13 } }
        "AAPL" (fun _ => "")).map (fun d => d.prices.length) =
      Except.ok 5 ∧ (5 : Nat) ≠ 4 := by
  exact ⟨rfl, by norm_num⟩

/-- C3 (amended): the chart-rendering extraction in `createChart` skips
`null`/`undefined` close entries while pairing every kept close with the
timestamp at the same index, preserving order — on the length-5 fixture
with one null close at index 2 it yields exactly the 4 remaining points in
order.  The comparison normalizer `processYahooFinanceData`, by contrast,
skips nothing: on the same fixture it keeps all 5 entries, coercing the
null close to `0`. -/
theorem createChart_null_alignment :
    (∀ (ts : List Int) (cs : List (Option ℚ)), cs.length = ts.length →
      createChartPoints ts cs =
        (ts.zip cs).filterMap (fun p => p.2.map (fun c => (p.1, c)))) ∧
    createChartPoints [1, 2, 3, 4, 5]
        [some 10, some 11, none, some 13, some 14] =
      [(1, 10), (2, 11), (4, 13), (5, 14)] ∧
    (processYahooFinanceData
        { timestamp := some [1, 2, 3, 4, 5],
          quote := [{ open_ := [some 10, some 11, none, some 13, some 14],
                      high := [some 10, some 11, none, some 13, some 14],
                      low := [some 10, some 11, none, some 13, some 14],
                      close := [some 10, some 11, none, some 13, some 14],
                      volume := [some 10, some 11, none, some 13, some 14] }],
          meta := { regularMarketPrice := some 14,
                    previousClose := some 13 } }
        "AAPL" (fun _ => "")).map (fun d => d.prices.map PricePoint.close) =
      Except.ok [10, 11, 0, 13, 14] := by
  exact ⟨createChartPoints_zip, rfl, rfl⟩

/-- Witness for `createChart_null_alignment` at the length-5 fixture. -/
theorem createChart_null_alignment_witness :
    createChartPoints [1, 2, 3, 4, 5]
        [some 10, some 11, none, some 13, some 14] =
      ([(1 : Int), 2, 3, 4, 5].zip
          [some (10 : ℚ), some 11, none, some 13, some 14]).filterMap
        (fun p => p.2.map (fun c => (p.1, c))) :=
  createChart_null_alignment.1 [1, 2, 3, 4, 5]
    [some 10, some 11, none, some 13, some 14] rfl

/-! ## C4: Alpha Vantage date sorting and slicing -/

theorem mem_of_lookup_eq_some {l : List (String × β)} {k : String} {v : β}
    (h : List.lookup k l = some v) : (k, v) ∈ l := by
  induction l with
  | nil => simp [List.lookup] at h
  | cons p rest ih =>
    obtain ⟨k0, v0⟩ := p
    by_cases hk : k = k0
    · subst hk
      rw [lookup_cons_self] at h
      simp at h
      simp [h]
    · rw [lookup_cons_ne k k0 v0 rest hk] at h
      exact List.mem_cons_of_mem _ (ih h)

theorem lookup_eq_some_of_mem_nodup {l : List (String × β)} {k : String}
    {v : β} (hm : (k, v) ∈ l) (hnd : (l.map Prod.fst).Nodup) :
    List.lookup k l = some v := by
  induction l with
  | nil => simp at hm
  | cons p rest ih =>
    obtain ⟨k0, v0⟩ := p
    simp only [List.map_cons, List.nodup_cons] at hnd
    rcases List.mem_cons.mp hm with he | ht
    · rw [Prod.mk.injEq] at he
      obtain ⟨h1, h2⟩ := he
      subst h1
      subst h2
      exact lookup_cons_self ..
    · by_cases hk : k = k0
      · subst hk
        exact absurd (List.mem_map_of_mem Prod.fst ht)
          (by simpa using hnd.1)
      · rw [lookup_cons_ne k k0 v0 rest hk]
        exact ih ht hnd.2

theorem lookup_perm_nodup {l1 l2 : List (String × β)} (hp : l1.Perm l2)
    (hnd : (l1.map Prod.fst).Nodup) (k : String) :
    List.lookup k l1 = List.lookup k l2 := by
  have hnd2 : (l2.map Prod.fst).Nodup := ((hp.map Prod.fst).nodup_iff).mp hnd
  cases h1 : List.lookup k l1 with
  | some v =>
    exact (lookup_eq_some_of_mem_nodup (hp.subset (mem_of_lookup_eq_some h1))
      hnd2).symm
  | none =>
    cases h2 : List.lookup k l2 with
    | none => rfl
    | some v =>
      rw [lookup_eq_some_of_mem_nodup
        (hp.symm.subset (mem_of_lookup_eq_some h2)) hnd] at h1
      exact absurd h1 (by simp)

theorem lookup_isSome_of_mem_keys (l : List (String × β)) (k : String)
    (h : k ∈ l.map Prod.fst) : ∃ v, List.lookup k l = some v := by
  induction l with
  | nil => simp at h
  | cons p rest ih =>
    obtain ⟨k0, v0⟩ := p
    by_cases hk : k = k0
    · subst hk
      exact ⟨v0, lookup_cons_self ..⟩
    · rw [lookup_cons_ne k k0 v0 rest hk]
      refine ih ?_
      simpa [hk] using h

theorem avBuildPrices_ok_dates {dates : List String} {ts : AVSeries}
    {ps : List PricePoint} (h : avBuildPrices dates ts = .ok ps) :
    ps.map PricePoint.date = dates := by
  induction dates generalizing ps with
  | nil =>
    simp only [avBuildPrices] at h
    injection h with h
    subst h
    rfl
  | cons d ds ih =>
    simp only [avBuildPrices] at h
    cases hl : List.lookup d ts with
    | none => rw [hl] at h; exact absurd h (by simp)
    | some day =>
      rw [hl] at h
      cases hr : avBuildPrices ds ts with
      | error e =>
        rw [hr] at h
        exact absurd h (by simp [Bind.bind, Except.bind])
      | ok rest =>
        rw [hr] at h
        simp only [Bind.bind, Except.bind, Except.ok.injEq] at h
        subst h
        simp [ih hr]

theorem avBuildPrices_congr (dates : List String) (ts1 ts2 : AVSeries)
    (h : ∀ k, List.lookup k ts1 = List.lookup k ts2) :
    avBuildPrices dates ts1 = avBuildPrices dates ts2 := by
  induction dates with
  | nil => rfl
  | cons d ds ih =>
    simp only [avBuildPrices, h d, ih]

theorem avBuildPrices_exists_ok (dates : List String) (ts : AVSeries)
    (h : ∀ d ∈ dates, d ∈ ts.map Prod.fst) :
    ∃ ps, avBuildPrices dates ts = .ok ps ∧
      ps.map PricePoint.date = dates := by
  induction dates with
  | nil => exact ⟨[], rfl, rfl⟩
  | cons d ds ih =>
    obtain ⟨day, hday⟩ := lookup_isSome_of_mem_keys ts d (h d (by simp))
    obtain ⟨ps, hps, hdates⟩ := ih (fun x hx => h x (by simp [hx]))
    refine ⟨⟨d, day.open_, day.high, day.low, day.close, day.volume⟩ :: ps,
      ?_, by simp [hdates]⟩
    simp only [avBuildPrices, hday, hps, Bind.bind, Except.bind]

theorem jsSliceStart_eq_drop (l : List α) (n : Int) :
    jsSliceStart l n =
      l.drop (if 0 ≤ n then n.toNat else ((l.length : Int) + n).toNat) := by
  unfold jsSliceStart
  split_ifs <;> rfl

theorem processAV_ok_dates {ts : AVSeries} {tr : Int} {sym : String}
    {d : StockData} (h : processAlphaVantageData ts tr sym = .ok d) :
    d.prices.map PricePoint.date =
      jsSliceStart (List.insertionSort strLeP (ts.map Prod.fst)) (-tr) := by
  simp only [processAlphaVantageData] at h
  cases hb : avBuildPrices
      (jsSliceStart (List.insertionSort strLeP (ts.map Prod.fst)) (-tr)) ts with
  | error e => rw [hb] at h; exact absurd h (by simp [Bind.bind, Except.bind])
  | ok ps =>
    rw [hb] at h
    simp only [Bind.bind, Except.bind] at h
    cases hl : ps.getLast? with
    | none => rw [hl] at h; exact absurd h (by simp)
    | some lastP =>
      rw [hl] at h
      simp only [Except.ok.injEq] at h
      subst h
      exact avBuildPrices_ok_dates hb

/-- C4: for every Alpha Vantage time-series object, normalization sorts the
date keys ascending in the JS code-unit string order (regardless of the
object's key order: the result is invariant under permutation of the
entries) and keeps exactly the last `timeRange` dates (all of them when
fewer exist); on the fixture with keys 2025-08-08, 2025-08-07, 2025-08-09
and `timeRange = 7` the output holds exactly those three dates ascending. -/
theorem processAlphaVantage_sorted_sliced :
    (∀ (ts : AVSeries) (tr : Int) (sym : String) (d : StockData),
      1 ≤ tr → processAlphaVantageData ts tr sym = .ok d →
      List.Sorted strLeP (d.prices.map PricePoint.date) ∧
      List.IsSuffix (d.prices.map PricePoint.date)
        (List.insertionSort strLeP (ts.map Prod.fst)) ∧
      d.prices.length = min tr.toNat ts.length) ∧
    (∀ (ts1 ts2 : AVSeries) (tr : Int) (sym : String),
      ts1.Perm ts2 → (ts1.map Prod.fst).Nodup →
      processAlphaVantageData ts1 tr sym =
        processAlphaVantageData ts2 tr sym) ∧
    ((processAlphaVantageData
        [("2025-08-08", ⟨2, 2, 2, 2, 2⟩), ("2025-08-07", ⟨1, 1, 1, 1, 1⟩),
         ("2025-08-09", ⟨3, 3, 3, 3, 3⟩)] 7 "IBM").map
        (fun d => d.prices.map PricePoint.date) =
      Except.ok ["2025-08-07", "2025-08-08", "2025-08-09"]) := by
  refine ⟨?_, ?_, by rfl⟩
  · intro ts tr sym d htr hok
    have hd := processAV_ok_dates hok
    have hsorted : List.Sorted strLeP
        (List.insertionSort strLeP (ts.map Prod.fst)) :=
      List.sorted_insertionSort strLeP (ts.map Prod.fst)
    rw [jsSliceStart_eq_drop] at hd
    refine ⟨?_, ?_, ?_⟩
    · rw [hd]
      exact hsorted.sublist (List.drop_sublist ..)
    · rw [hd]
      exact List.drop_suffix ..
    · have hlen : d.prices.length = (d.prices.map PricePoint.date).length :=
        by simp
      rw [hlen, hd, List.length_drop]
      have h1 : (List.insertionSort strLeP (ts.map Prod.fst)).length =
          ts.length := by
        rw [(List.perm_insertionSort strLeP (ts.map Prod.fst)).length_eq,
          List.length_map]
      rw [h1]
      rw [if_neg (show ¬ (0 : Int) ≤ -tr by omega)]
      omega
  · intro ts1 ts2 tr sym hp hnd
    have hsorteq : List.insertionSort strLeP (ts1.map Prod.fst) =
        List.insertionSort strLeP (ts2.map Prod.fst) :=
      List.eq_of_perm_of_sorted
        ((List.perm_insertionSort ..).trans ((hp.map Prod.fst).trans
          (List.perm_insertionSort ..).symm))
        (List.sorted_insertionSort ..) (List.sorted_insertionSort ..)
    have hkb := avBuildPrices_congr
      (jsSliceStart (List.insertionSort strLeP (ts2.map Prod.fst)) (-tr))
      ts1 ts2 (lookup_perm_nodup hp hnd)
    simp only [processAlphaVantageData]
    rw [hsorteq, hkb]

/-- Witness for `processAlphaVantage_sorted_sliced` at the three-day
fixture with `timeRange = 7`. -/
theorem processAlphaVantage_sorted_sliced_witness :
    (1 : Int) ≤ 7 ∧
    processAlphaVantageData
        [("2025-08-08", ⟨2, 2, 2, 2, 2⟩), ("2025-08-07", ⟨1, 1, 1, 1, 1⟩),
         ("2025-08-09", ⟨3, 3, 3, 3, 3⟩)] 7 "IBM" =
      .ok ⟨"IBM",
        [⟨"2025-08-07", 1, 1, 1, 1, 1⟩, ⟨"2025-08-08", 2, 2, 2, 2, 2⟩,
         ⟨"2025-08-09", 3, 3, 3, 3, 3⟩], 3, "IBM Inc.", 3 - 2⟩ ∧
    List.Sorted strLeP
      ((⟨"IBM",
        [⟨"2025-08-07", 1, 1, 1, 1, 1⟩, ⟨"2025-08-08", 2, 2, 2, 2, 2⟩,
         ⟨"2025-08-09", 3, 3, 3, 3, 3⟩], 3, "IBM Inc.",
        3 - 2⟩ : StockData).prices.map PricePoint.date) := by
  have hfix : processAlphaVantageData
      [("2025-08-08", ⟨2, 2, 2, 2, 2⟩), ("2025-08-07", ⟨1, 1, 1, 1, 1⟩),
       ("2025-08-09", ⟨3, 3, 3, 3, 3⟩)] 7 "IBM" =
      .ok ⟨"IBM",
        [⟨"2025-08-07", 1, 1, 1, 1, 1⟩, ⟨"2025-08-08", 2, 2, 2, 2, 2⟩,
         ⟨"2025-08-09", 3, 3, 3, 3, 3⟩], 3, "IBM Inc.", 3 - 2⟩ := rfl
  refine ⟨by norm_num, hfix, ?_⟩
  exact (processAlphaVantage_sorted_sliced.1 _ 7 "IBM" _
    (by norm_num) hfix).1

/-! ## C5: the two mock data generators -/

theorem getLast?_cons_ne_nil (x : α) (l : List α) (h : l ≠ []) :
    (x :: l).getLast? = l.getLast? := by
  cases l with
  | nil => exact absurd rfl h
  | cons y ys => simp [List.getLast?_cons_cons]

theorem mockLoop_length (basePrice : ℚ) (rand : Nat → ℚ) (today : Int)
    (dayISO : Int → String) :
    ∀ n k, (mockLoop basePrice rand today dayISO n k).length = n := by
  intro n
  induction n with
  | zero => intro k; rfl
  | succ m ih => intro k; simp [mockLoop, ih]

theorem mockLoop_close_ge_one (basePrice : ℚ) (rand : Nat → ℚ) (today : Int)
    (dayISO : Int → String) :
    ∀ n k p, p ∈ mockLoop basePrice rand today dayISO n k →
      1 ≤ p.close := by
  intro n
  induction n with
  | zero => intro k p hp; simp [mockLoop] at hp
  | succ m ih =>
    intro k p hp
    rcases List.mem_cons.mp hp with he | ht
    · subst he
      exact le_max_left ..
    · exact ih (k + 1) p ht

theorem mockLoop_last_date (basePrice : ℚ) (rand : Nat → ℚ) (today : Int)
    (dayISO : Int → String) :
    ∀ n k, ((mockLoop basePrice rand today dayISO (n + 1) k).map
      PricePoint.date).getLast? = some (dayISO today) := by
  intro n
  induction n with
  | zero => intro k; simp [mockLoop]
  | succ m ih =>
    intro k
    have hlist : mockLoop basePrice rand today dayISO (m + 1) (k + 1) ≠ [] := by
      have h := mockLoop_length basePrice rand today dayISO (m + 1) (k + 1)
      intro hc
      rw [hc] at h
      simp at h
    have hne : (mockLoop basePrice rand today dayISO (m + 1) (k + 1)).map
        PricePoint.date ≠ [] := by
      simpa using hlist
    rw [show mockLoop basePrice rand today dayISO (m + 1 + 1) k =
      _ :: mockLoop basePrice rand today dayISO (m + 1) (k + 1) from rfl]
    rw [List.map_cons, getLast?_cons_ne_nil _ _ hne]
    exact ih (k + 1)

theorem generateMock_ok (rand : Nat → ℚ) (today : Int)
    (dayISO : Int → String) (sym : String) (tr : Int) (htr : 1 ≤ tr) :
    ∃ d, generateMockStockData rand today dayISO sym tr = .ok d ∧
      d.prices.length = tr.toNat ∧
      (∀ p ∈ d.prices, 1 ≤ p.close) ∧
      (d.prices.map PricePoint.date).getLast? = some (dayISO today) := by
  have hn : ∃ m, tr.toNat = m + 1 := ⟨tr.toNat - 1, by omega⟩
  obtain ⟨m, hm⟩ := hn
  have hne : mockLoop (rand 0 * 200 + 50) rand today dayISO tr.toNat 0 ≠ [] := by
    have := mockLoop_length (rand 0 * 200 + 50) rand today dayISO tr.toNat 0
    intro hcon
    rw [hcon] at this
    simp at this
    omega
  obtain ⟨lastP, hlast⟩ :=
    Option.isSome_iff_exists.mp (by
      rw [List.getLast?_isSome]
      exact hne)
  cases hg : generateMockStockData rand today dayISO sym tr with
  | error e =>
    exfalso
    simp only [generateMockStockData, hlast] at hg
    exact absurd hg (by simp)
  | ok d =>
    have hd : d.prices =
        mockLoop (rand 0 * 200 + 50) rand today dayISO tr.toNat 0 := by
      simp only [generateMockStockData, hlast, Except.ok.injEq] at hg
      rw [← hg]
    refine ⟨d, rfl, ?_, ?_, ?_⟩
    · rw [hd]
      exact mockLoop_length ..
    · rw [hd]
      exact fun p hp => mockLoop_close_ge_one _ _ _ _ _ _ p hp
    · rw [hd, hm]
      exact mockLoop_last_date _ _ _ _ m 0

theorem searchMockLoop_length (basePrice : ℚ) (rand : Nat → ℚ)
    (msin : ℚ → ℚ) (piv : ℚ) (vtr : Nat) (today : Int) (dayTS : Int → Int) :
    ∀ n, (searchMockLoop basePrice rand msin piv vtr today dayTS n).length
      = n := by
  intro n
  induction n with
  | zero => rfl
  | succ m ih => simp [searchMockLoop, ih]

theorem searchMockLoop_snd_ge_one (basePrice : ℚ) (rand : Nat → ℚ)
    (msin : ℚ → ℚ) (piv : ℚ) (vtr : Nat) (today : Int) (dayTS : Int → Int) :
    ∀ n p, p ∈ searchMockLoop basePrice rand msin piv vtr today dayTS n →
      1 ≤ p.2 := by
  intro n
  induction n with
  | zero => intro p hp; simp [searchMockLoop] at hp
  | succ m ih =>
    intro p hp
    rcases List.mem_cons.mp hp with he | ht
    · subst he
      exact le_max_right ..
    · exact ih p ht

theorem searchMockLoop_last_fst (basePrice : ℚ) (rand : Nat → ℚ)
    (msin : ℚ → ℚ) (piv : ℚ) (vtr : Nat) (today : Int) (dayTS : Int → Int) :
    ∀ n, ((searchMockLoop basePrice rand msin piv vtr today dayTS
      (n + 1)).map Prod.fst).getLast? = some (dayTS today) := by
  intro n
  induction n with
  | zero => simp [searchMockLoop]
  | succ m ih =>
    have hlist : searchMockLoop basePrice rand msin piv vtr today dayTS
        (m + 1) ≠ [] := by
      have h := searchMockLoop_length basePrice rand msin piv vtr today dayTS
        (m + 1)
      intro hc
      rw [hc] at h
      simp at h
    have hne : (searchMockLoop basePrice rand msin piv vtr today dayTS
        (m + 1)).map Prod.fst ≠ [] := by
      simpa using hlist
    rw [show searchMockLoop basePrice rand msin piv vtr today dayTS
      (m + 1 + 1) =
      _ :: searchMockLoop basePrice rand msin piv vtr today dayTS (m + 1)
      from rfl]
    rw [List.map_cons, getLast?_cons_ne_nil _ _ hne]
    exact ih

/-- C5 counterexample: `generateMockStockData` with `timeRange = 30`
produces 30 points, not the `timeRange + 1 = 31` the claim states. -/
theorem generateMock_thirty_points :
    (generateMockStockData (fun _ => 0) 0 (fun _ => "d") "AAPL" 30).map
      (fun d => d.prices.length) = Except.ok 30 ∧ (30 : Nat) ≠ 31 := by
  obtain ⟨d, hok, hlen, -, -⟩ :=
    generateMock_ok (fun _ => 0) 0 (fun _ => "d") "AAPL" 30 (by norm_num)
  rw [hok]
  refine ⟨?_, by norm_num⟩
  simp only [Except.map]
  exact congrArg Except.ok hlen

/-- C5 (amended): `searchStockMockData` produces
`max(timeRange || 30, 7) + 1` points ending today, every close clamped to
at least 1 (hence strictly positive); `generateMockStockData` produces
`timeRange` points (not `timeRange + 1`) ending today, every close at
least 1; so for `timeRange = 30` they produce 31 and 30 points
respectively. -/
theorem mock_generators_shape :
    (∀ (rand : Nat → ℚ) (msin : ℚ → ℚ) (piv : ℚ) (today : Int)
        (dayTS : Int → Int) (sym : String) (tr : Int),
      (searchStockMockData rand msin piv today dayTS sym tr).closes.length =
        (max (jsOrInt tr 30) 7).toNat + 1 ∧
      (∀ q ∈ (searchStockMockData rand msin piv today dayTS sym tr).closes,
        1 ≤ q) ∧
      (searchStockMockData rand msin piv today dayTS sym
          tr).timestamps.getLast? = some (dayTS today)) ∧
    (∀ (rand : Nat → ℚ) (today : Int) (dayISO : Int → String)
        (sym : String) (tr : Int), 1 ≤ tr →
      ∃ d, generateMockStockData rand today dayISO sym tr = .ok d ∧
        d.prices.length = tr.toNat ∧
        (∀ p ∈ d.prices, 1 ≤ p.close) ∧
        (d.prices.map PricePoint.date).getLast? = some (dayISO today)) := by
  refine ⟨?_, generateMock_ok⟩
  intro rand msin piv today dayTS sym tr
  refine ⟨?_, ?_, ?_⟩
  · simp only [searchStockMockData, List.length_map]
    exact searchMockLoop_length ..
  · intro q hq
    simp only [searchStockMockData, List.mem_map] at hq
    obtain ⟨p, hp, hpq⟩ := hq
    rw [← hpq]
    exact searchMockLoop_snd_ge_one _ _ _ _ _ _ _ _ p hp
  · simp only [searchStockMockData]
    exact searchMockLoop_last_fst ..

/-- Witness for `mock_generators_shape` at `timeRange = 30`:
`searchStockMockData` yields 31 closes and `generateMockStockData` yields
30 points. -/
theorem mock_generators_shape_witness :
    (searchStockMockData (fun _ => 0) (fun _ => 0) 3 0 (fun i => i) "AAPL"
        30).closes.length = 31 ∧
    (generateMockStockData (fun _ => 1) 0 (fun _ => "d") "AAPL" 30).map
      (fun d => d.prices.length) = Except.ok 30 := by
  constructor
  · have h := (mock_generators_shape.1 (fun _ => 0) (fun _ => 0) 3 0
      (fun i => i) "AAPL" 30).1
    rw [h]
    rfl
  · obtain ⟨d, hok, hlen, -, -⟩ := mock_generators_shape.2 (fun _ => 1) 0
      (fun _ => "d") "AAPL" 30 (by norm_num)
    rw [hok]
    simp only [Except.map]
    exact congrArg Except.ok hlen

/-! ## C7: acceptance / rejection policy of the sources -/

theorem dates_length (ts : AVSeries) (tr : Int) (htr : 1 ≤ tr) :
    (jsSliceStart (List.insertionSort strLeP (ts.map Prod.fst)) (-tr)).length
      = min tr.toNat ts.length := by
  rw [jsSliceStart_eq_drop, List.length_drop]
  have h1 : (List.insertionSort strLeP (ts.map Prod.fst)).length =
      ts.length := by
    rw [(List.perm_insertionSort strLeP (ts.map Prod.fst)).length_eq,
      List.length_map]
  rw [h1, if_neg (show ¬ (0 : Int) ≤ -tr by omega)]
  omega

theorem processAV_exists_ok (ts : AVSeries) (tr : Int) (sym : String)
    (hne : ts ≠ []) (htr : 1 ≤ tr) :
    ∃ d, processAlphaVantageData ts tr sym = .ok d ∧
      d.prices.length = min tr.toNat ts.length := by
  have hsub : ∀ x ∈ jsSliceStart
      (List.insertionSort strLeP (ts.map Prod.fst)) (-tr),
      x ∈ ts.map Prod.fst := by
    intro x hx
    rw [jsSliceStart_eq_drop] at hx
    exact (List.perm_insertionSort strLeP (ts.map Prod.fst)).subset
      ((List.drop_sublist ..).subset hx)
  obtain ⟨ps, hps, hdates⟩ := avBuildPrices_exists_ok _ ts hsub
  have hlenps : ps.length = min tr.toNat ts.length := by
    have h := congrArg List.length hdates
    rw [List.length_map] at h
    rw [h]
    exact dates_length ts tr htr
  have hpos : 0 < ps.length := by
    rw [hlenps]
    have h0 : 0 < ts.length := List.length_pos.mpr hne
    omega
  obtain ⟨lastP, hlast⟩ :=
    Option.isSome_iff_exists.mp (by
      rw [List.getLast?_isSome]
      exact List.length_pos.mp hpos)
  cases hp2 : processAlphaVantageData ts tr sym with
  | error e =>
    exfalso
    simp only [processAlphaVantageData] at hp2
    rw [hps] at hp2
    simp only [Bind.bind, Except.bind] at hp2
    rw [hlast] at hp2
    exact absurd hp2 (by simp)
  | ok d =>
    refine ⟨d, rfl, ?_⟩
    simp only [processAlphaVantageData] at hp2
    rw [hps] at hp2
    simp only [Bind.bind, Except.bind] at hp2
    rw [hlast] at hp2
    simp only [Except.ok.injEq] at hp2
    rw [← hp2]
    exact hlenps

/-- C7 counterexample: an Alpha Vantage response holding a single data
point — fewer than 5 valid points — is accepted by
`fetchStockDataAlphaVantage`, so no ≈5-point minimum exists. -/
theorem one_point_response_accepted :
    (fetchStockDataAlphaVantage
        (.ok { errorMessage := none, note := none, information := none,
               timeSeries := some [("2025-08-07", ⟨1, 2, 1, 2, 100⟩)] })
        7 "IBM").map (fun d => d.prices.length) = Except.ok 1 ∧
      (1 : Nat) < 5 := ⟨rfl, by norm_num⟩

/-- C7 (amended): a source response with zero data points is rejected,
falling through to the next source — a missing Alpha Vantage time series
throws, an empty time-series object throws while processing, a missing or
empty Yahoo `chart.result` throws, and `fetchStockData` moves past a
source that threw; but there is no ≈5-point minimum: every Alpha Vantage
response with at least one point (and no error/rate-limit field) is
accepted. -/
theorem source_rejection_policy :
    (∀ (data : AVResponse) (tr : Int) (sym : String),
      data.timeSeries = none →
      ∃ e, fetchStockDataAlphaVantage (.ok data) tr sym = .error e) ∧
    (∀ (data : AVResponse) (tr : Int) (sym : String),
      data.timeSeries = some [] →
      ∃ e, fetchStockDataAlphaVantage (.ok data) tr sym = .error e) ∧
    (∀ (data : YFResponse) (sym : String) (tsISO : Int → String),
      (data.chart = none ∨ (∃ ch, data.chart = some ch ∧
        (ch.result = none ∨ ch.result = some []))) →
      ∃ e, fetchStockDataYahoo (.ok data) sym tsISO = .error e) ∧
    (∀ (data : AVResponse) (ts : AVSeries) (tr : Int) (sym : String),
      jsTruthyStr data.errorMessage = false →
      jsTruthyStr data.note = false →
      data.timeSeries = some ts → ts ≠ [] → 1 ≤ tr →
      ∃ d, fetchStockDataAlphaVantage (.ok data) tr sym = .ok d ∧
        d.prices.length = min tr.toNat ts.length) ∧
    (∀ (avResp : Except String AVResponse)
        (yfResp : Except String YFResponse) (rand : Nat → ℚ) (today : Int)
        (dayISO tsISO : Int → String) (sym : String) (tr : Int) (e : String)
        (dY : StockData),
      fetchStockDataAlphaVantage avResp tr sym = .error e →
      fetchStockDataYahoo yfResp sym tsISO = .ok dY →
      fetchStockData avResp yfResp rand today dayISO tsISO sym tr
        = .ok dY) := by
  refine ⟨?_, ?_, ?_, ?_, ?_⟩
  · intro data tr sym hts
    simp only [fetchStockDataAlphaVantage]
    by_cases h1 : jsTruthyStr data.errorMessage
    · refine ⟨"Stock symbol " ++ sym ++ " not found", ?_⟩
      rw [if_pos h1]
    · rw [if_neg h1]
      by_cases h2 : jsTruthyStr data.note
      · refine ⟨"API call frequency exceeded. Please try again later.", ?_⟩
        rw [if_pos h2]
      · rw [if_neg h2, hts]
        exact ⟨"No data available for " ++ sym, rfl⟩
  · intro data tr sym hts
    simp only [fetchStockDataAlphaVantage]
    by_cases h1 : jsTruthyStr data.errorMessage
    · refine ⟨"Stock symbol " ++ sym ++ " not found", ?_⟩
      rw [if_pos h1]
    · rw [if_neg h1]
      by_cases h2 : jsTruthyStr data.note
      · refine ⟨"API call frequency exceeded. Please try again later.", ?_⟩
        rw [if_pos h2]
      · rw [if_neg h2, hts]
        refine ⟨"TypeError: cannot read close of undefined", ?_⟩
        simp only [processAlphaVantageData, jsSliceStart_eq_drop]
        rw [show List.insertionSort strLeP (([] : AVSeries).map Prod.fst)
          = [] from rfl]
        rw [List.drop_nil]
        rfl
  · intro data sym tsISO hcase
    rcases hcase with hch | ⟨ch, hch, hres⟩
    · exact ⟨"No data available for " ++ sym,
        by simp only [fetchStockDataYahoo, hch]⟩
    · rcases hres with hr | hr
      · exact ⟨"No data available for " ++ sym,
          by simp only [fetchStockDataYahoo, hch, hr]⟩
      · exact ⟨"No data available for " ++ sym,
          by simp only [fetchStockDataYahoo, hch, hr]⟩
  · intro data ts tr sym h1 h2 hts hne htr
    obtain ⟨d, hd, hlen⟩ := processAV_exists_ok ts tr sym hne htr
    refine ⟨d, ?_, hlen⟩
    simp only [fetchStockDataAlphaVantage]
    rw [if_neg (by simp [h1]), if_neg (by simp [h2]), hts]
    exact hd
  · intro avResp yfResp rand today dayISO tsISO sym tr e dY hAV hY
    simp only [fetchStockData, hAV, hY]

/-- Witness for `source_rejection_policy`: concrete empty and one-point
responses, and a concrete fall-through from a thrown Alpha Vantage fetch
to a successful Yahoo response. -/
theorem source_rejection_policy_witness :
    (fetchStockDataAlphaVantage
        (.ok ⟨none, none, none, none⟩) 7 "IBM").isOk = false ∧
    (fetchStockDataAlphaVantage
        (.ok ⟨none, none, none, some []⟩) 7 "IBM").isOk = false ∧
    (fetchStockDataYahoo (.ok ⟨none⟩) "IBM" (fun _ => "")).isOk = false ∧
    (fetchStockDataAlphaVantage
        (.ok ⟨none, none, none,
          some [("2025-08-07", ⟨1, 2, 1, 2, 100⟩),
                ("2025-08-08", ⟨2, 3, 2, 3, 100⟩)]⟩) 7 "IBM").isOk = true ∧
    fetchStockData (.error "boom")
        (.ok ⟨some ⟨some [⟨some [1],
          [⟨[some 2], [some 2], [some 2], [some 2], [some 2]⟩],
          ⟨some 2, some 3⟩⟩]⟩⟩)
        (fun _ => 0) 0 (fun _ => "") (fun _ => "") "IBM" 7 =
      .ok ⟨"IBM", [⟨"", 2, 2, 2, 2, 2⟩], 2, "IBM Corporation", 2 - 3⟩ := by
  obtain ⟨p1, p2, p3, p4, p5⟩ := source_rejection_policy
  obtain ⟨e1, he1⟩ := p1 ⟨none, none, none, none⟩ 7 "IBM" rfl
  obtain ⟨e2, he2⟩ := p2 ⟨none, none, none, some []⟩ 7 "IBM" rfl
  obtain ⟨e3, he3⟩ := p3 ⟨none⟩ "IBM" (fun _ => "") (Or.inl rfl)
  obtain ⟨d4, hd4, -⟩ := p4 ⟨none, none, none,
      some [("2025-08-07", ⟨1, 2, 1, 2, 100⟩),
            ("2025-08-08", ⟨2, 3, 2, 3, 100⟩)]⟩
    [("2025-08-07", ⟨1, 2, 1, 2, 100⟩), ("2025-08-08", ⟨2, 3, 2, 3, 100⟩)]
    7 "IBM" rfl rfl rfl (by simp) (by norm_num)
  refine ⟨by rw [he1]; rfl, by rw [he2]; rfl, by rw [he3]; rfl,
    by rw [hd4]; rfl, ?_⟩
  exact p5 (.error "boom")
    (.ok ⟨some ⟨some [⟨some [1],
      [⟨[some 2], [some 2], [some 2], [some 2], [some 2]⟩],
      ⟨some 2, some 3⟩⟩]⟩⟩)
    (fun _ => 0) 0 (fun _ => "") (fun _ => "") "IBM" 7 "boom"
    ⟨"IBM", [⟨"", 2, 2, 2, 2, 2⟩], 2, "IBM Corporation", 2 - 3⟩ rfl rfl

/-! ## C8: the quote snapshot fields -/

theorem foldl_max_spec (as : List ℚ) (a : ℚ) :
    (as.foldl max a) ∈ a :: as ∧ a ≤ as.foldl max a ∧
      ∀ x ∈ as, x ≤ as.foldl max a := by
  induction as generalizing a with
  | nil => simp
  | cons b bs ih =>
    obtain ⟨hmem, hle, hbound⟩ := ih (max a b)
    simp only [List.foldl_cons]
    refine ⟨?_, ?_, ?_⟩
    · rcases List.mem_cons.mp hmem with he | ht
      · rcases max_choice a b with hc | hc <;> rw [he, hc] <;> simp
      · simp [List.mem_cons_of_mem, ht]
    · exact le_trans (le_max_left a b) hle
    · intro x hx
      rcases List.mem_cons.mp hx with he | ht
      · rw [he]
        exact le_trans (le_max_right a b) hle
      · exact hbound x ht

theorem foldl_min_spec (as : List ℚ) (a : ℚ) :
    (as.foldl min a) ∈ a :: as ∧ as.foldl min a ≤ a ∧
      ∀ x ∈ as, as.foldl min a ≤ x := by
  induction as generalizing a with
  | nil => simp
  | cons b bs ih =>
    obtain ⟨hmem, hle, hbound⟩ := ih (min a b)
    simp only [List.foldl_cons]
    refine ⟨?_, ?_, ?_⟩
    · rcases List.mem_cons.mp hmem with he | ht
      · rcases min_choice a b with hc | hc <;> rw [he, hc] <;> simp
      · simp [List.mem_cons_of_mem, ht]
    · exact le_trans hle (min_le_left a b)
    · intro x hx
      rcases List.mem_cons.mp hx with he | ht
      · rw [he]
        exact le_trans hle (min_le_right a b)
      · exact hbound x ht

theorem q_max?_spec {l : List ℚ} {m : ℚ} (h : l.max? = some m) :
    m ∈ l ∧ ∀ x ∈ l, x ≤ m := by
  cases l with
  | nil => simp [List.max?] at h
  | cons a as =>
    simp only [List.max?, Option.some.injEq] at h
    subst h
    obtain ⟨hmem, hle, hbound⟩ := foldl_max_spec as a
    refine ⟨hmem, ?_⟩
    intro x hx
    rcases List.mem_cons.mp hx with he | ht
    · rw [he]; exact hle
    · exact hbound x ht

theorem q_min?_spec {l : List ℚ} {m : ℚ} (h : l.min? = some m) :
    m ∈ l ∧ ∀ x ∈ l, m ≤ x := by
  cases l with
  | nil => simp [List.min?] at h
  | cons a as =>
    simp only [List.min?, Option.some.injEq] at h
    subst h
    obtain ⟨hmem, hle, hbound⟩ := foldl_min_spec as a
    refine ⟨hmem, ?_⟩
    intro x hx
    rcases List.mem_cons.mp hx with he | ht
    · rw [he]; exact hle
    · exact hbound x ht

/-- C8 counterexample: two Alpha Vantage responses agreeing on their last
two OHLCV points but differing in an earlier close produce different
`dayLow` values, so the quote snapshot is not derived from the last two
points alone — `dayHigh`/`dayLow` come from the last five. -/
theorem dayLow_not_from_last_two :
    (searchStockAlphaVantage
        (.ok ⟨none, none, none, some
          [("2025-08-01", ⟨1, 1, 1, 1, 100⟩), ("2025-08-02", ⟨2, 2, 2, 2, 100⟩),
           ("2025-08-03", ⟨3, 3, 3, 3, 100⟩), ("2025-08-04", ⟨4, 4, 4, 4, 100⟩),
           ("2025-08-05", ⟨5, 5, 5, 5, 100⟩)]⟩) 7 "IBM").map
        (fun r => (r.2.regularMarketDayLow, r.1.drop 3)) =
      Except.ok (some 1, [4, 5]) ∧
    (searchStockAlphaVantage
        (.ok ⟨none, none, none, some
          [("2025-08-01", ⟨2, 2, 2, 2, 100⟩), ("2025-08-02", ⟨2, 2, 2, 2, 100⟩),
           ("2025-08-03", ⟨3, 3, 3, 3, 100⟩), ("2025-08-04", ⟨4, 4, 4, 4, 100⟩),
           ("2025-08-05", ⟨5, 5, 5, 5, 100⟩)]⟩) 7 "IBM").map
        (fun r => (r.2.regularMarketDayLow, r.1.drop 3)) =
      Except.ok (some 2, [4, 5]) ∧
    some (1 : ℚ) ≠ some 2 := by
  refine ⟨rfl, rfl, by norm_num⟩

/-- C8 (amended): in `searchStockAlphaVantage` the quote snapshot derives
`currentPrice` from the last point and `previousClose` from the
second-to-last (falling back to `currentPrice` when absent or zero), but
`dayHigh` and `dayLow` are the maximum and minimum of the closes of the
last five points, not of the last two; the snapshot is a pure function of
the fetched response, recomputed on each fetch. -/
theorem quote_snapshot_derivation :
    ∀ (data : AVResponse) (tr : Int) (sym : String) (prices : List ℚ)
      (quote : AVQuote),
      searchStockAlphaVantage (.ok data) tr sym = .ok (prices, quote) →
      quote.regularMarketPrice = prices.getLast? ∧
      quote.regularMarketPreviousClose =
        jsOrQopt (jsIdx prices ((prices.length : Int) - 2))
          prices.getLast? ∧
      (∀ h, quote.regularMarketDayHigh = some h →
        h ∈ takeLast prices 5 ∧ ∀ x ∈ takeLast prices 5, x ≤ h) ∧
      (∀ m, quote.regularMarketDayLow = some m →
        m ∈ takeLast prices 5 ∧ ∀ x ∈ takeLast prices 5, m ≤ x) := by
  intro data tr sym prices quote hok
  simp only [searchStockAlphaVantage] at hok
  split at hok
  · exact absurd hok (by simp)
  · split at hok
    · exact absurd hok (by simp)
    · split at hok
      · exact absurd hok (by simp)
      · split at hok
        · exact absurd hok (by simp)
        · rename_i ts heq
          cases hc : avCloses
              (jsSliceStart (List.insertionSort strLeP (ts.map Prod.fst))
                (-tr)) ts with
          | error e =>
            rw [hc] at hok
            exact absurd hok (by simp [Bind.bind, Except.bind])
          | ok ps =>
            rw [hc] at hok
            simp only [Bind.bind, Except.bind, Except.ok.injEq,
              Prod.mk.injEq] at hok
            obtain ⟨hp, hq⟩ := hok
            subst hp
            rw [← hq]
            refine ⟨rfl, rfl, ?_, ?_⟩
            · intro h hh
              exact q_max?_spec hh
            · intro m hm
              exact q_min?_spec hm

/-- Witness for `quote_snapshot_derivation` at a five-day fixture. -/
theorem quote_snapshot_derivation_witness :
    searchStockAlphaVantage
        (.ok ⟨none, none, none, some
          [("2025-08-01", ⟨1, 1, 1, 1, 100⟩), ("2025-08-02", ⟨2, 2, 2, 2, 100⟩),
           ("2025-08-03", ⟨3, 3, 3, 3, 100⟩), ("2025-08-04", ⟨4, 4, 4, 4, 100⟩),
           ("2025-08-05", ⟨5, 5, 5, 5, 100⟩)]⟩) 7 "IBM" =
      .ok ([1, 2, 3, 4, 5],
        ⟨"IBM Inc.", "IBM", some 5, some 4, some 5, some 1⟩) ∧
    ((5 : ℚ) ∈ takeLast [(1 : ℚ), 2, 3, 4, 5] 5 ∧
      ∀ x ∈ takeLast [(1 : ℚ), 2, 3, 4, 5] 5, x ≤ 5) ∧
    ((1 : ℚ) ∈ takeLast [(1 : ℚ), 2, 3, 4, 5] 5 ∧
      ∀ x ∈ takeLast [(1 : ℚ), 2, 3, 4, 5] 5, 1 ≤ x) := by
  have hfix : searchStockAlphaVantage
      (.ok ⟨none, none, none, some
        [("2025-08-01", ⟨1, 1, 1, 1, 100⟩), ("2025-08-02", ⟨2, 2, 2, 2, 100⟩),
         ("2025-08-03", ⟨3, 3, 3, 3, 100⟩), ("2025-08-04", ⟨4, 4, 4, 4, 100⟩),
         ("2025-08-05", ⟨5, 5, 5, 5, 100⟩)]⟩) 7 "IBM" =
      .ok ([1, 2, 3, 4, 5],
        ⟨"IBM Inc.", "IBM", some 5, some 4, some 5, some 1⟩) := rfl
  have h := quote_snapshot_derivation _ 7 "IBM" [1, 2, 3, 4, 5]
    ⟨"IBM Inc.", "IBM", some 5, some 4, some 5, some 1⟩ hfix
  exact ⟨hfix, h.2.2.1 5 rfl, h.2.2.2 1 rfl⟩

/-! ## C2: values delivered by the fallback chain -/

theorem except_bind_ok {α β : Type} {x : Except String α}
    {f : α → Except String β} {b : β} :
    Except.bind x f = Except.ok b ↔
      ∃ a, x = Except.ok a ∧ f a = Except.ok b := by
  cases x <;> simp [Except.bind]

theorem idx0_nonneg (l : List (Option ℚ)) (i : Nat)
    (h : ∀ oc ∈ l, ∀ c, oc = some c → 0 ≤ c) : 0 ≤ idx0 l i := by
  unfold idx0
  cases hg : l[i]? with
  | none => simp
  | some oc =>
    cases oc with
    | none => simp
    | some c =>
      have hmem : (some c : Option ℚ) ∈ l := by
        obtain ⟨hlt, he⟩ := List.getElem?_eq_some.mp hg
        rw [← he]
        exact List.getElem_mem hlt
      have hc : 0 ≤ c := h _ hmem c rfl
      simpa using hc

theorem buildYahooPrices_ok_close_nonneg (tsISO : Int → String)
    (q : Option YahooQuotes)
    (hq : ∀ quotes, q = some quotes →
      ∀ oc ∈ quotes.close, ∀ c, oc = some c → 0 < c) :
    ∀ (tms : List Int) (i : Nat) (ps : List PricePoint),
      buildYahooPrices tsISO q tms i = .ok ps →
      ∀ p ∈ ps, 0 ≤ p.close := by
  intro tms
  induction tms with
  | nil =>
    intro i ps h p hp
    simp only [buildYahooPrices, Except.ok.injEq] at h
    subst h
    simp at hp
  | cons t ts ih =>
    intro i ps h p hp
    cases q with
    | none => simp [buildYahooPrices] at h
    | some quotes =>
      simp only [buildYahooPrices, Bind.bind] at h
      obtain ⟨rest, hrest, h⟩ := except_bind_ok.mp h
      simp only [Except.ok.injEq] at h
      subst h
      rcases List.mem_cons.mp hp with he | ht
      · subst he
        exact idx0_nonneg quotes.close i
          (fun oc hoc c hc => le_of_lt (hq quotes rfl oc hoc c hc))
      · exact ih (i + 1) rest hrest p ht

theorem processYahoo_ok_prices {result : YahooResult} {sym : String}
    {tsISO : Int → String} {d : StockData}
    (h : processYahooFinanceData result sym tsISO = .ok d) :
    buildYahooPrices tsISO result.quote.head?
      (result.timestamp.getD []) 0 = .ok d.prices := by
  simp only [processYahooFinanceData, Bind.bind] at h
  obtain ⟨ps, hA, h⟩ := except_bind_ok.mp h
  obtain ⟨cur, hB, h⟩ := except_bind_ok.mp h
  obtain ⟨prev, hC, h⟩ := except_bind_ok.mp h
  simp only [Except.ok.injEq] at h
  rw [hA, ← h]

theorem processAV_ok_build {ts : AVSeries} {tr : Int} {sym : String}
    {d : StockData} (h : processAlphaVantageData ts tr sym = .ok d) :
    avBuildPrices
      (jsSliceStart (List.insertionSort strLeP (ts.map Prod.fst)) (-tr)) ts
      = .ok d.prices := by
  simp only [processAlphaVantageData, Bind.bind] at h
  obtain ⟨ps, hA, h⟩ := except_bind_ok.mp h
  cases hl : ps.getLast? with
  | none => rw [hl] at h; exact absurd h (by simp)
  | some lastP =>
    rw [hl] at h
    simp only [Except.ok.injEq] at h
    rw [hA, ← h]

theorem avBuildPrices_close_from_ts :
    ∀ (dates : List String) (ts : AVSeries) (ps : List PricePoint),
      avBuildPrices dates ts = .ok ps →
      ∀ p ∈ ps, ∃ day, (p.date, day) ∈ ts ∧ p.close = day.close := by
  intro dates
  induction dates with
  | nil =>
    intro ts ps h p hp
    simp only [avBuildPrices, Except.ok.injEq] at h
    subst h
    simp at hp
  | cons dd ds ih =>
    intro ts ps h p hp
    simp only [avBuildPrices] at h
    cases hl : List.lookup dd ts with
    | none => rw [hl] at h; exact absurd h (by simp)
    | some day =>
      rw [hl] at h
      simp only [Bind.bind] at h
      obtain ⟨rest, hrest, h⟩ := except_bind_ok.mp h
      simp only [Except.ok.injEq] at h
      subst h
      rcases List.mem_cons.mp hp with he | ht
      · subst he
        exact ⟨day, mem_of_lookup_eq_some hl, rfl⟩
      · exact ih ts rest hrest p ht

/-- C2 counterexample: the Yahoo path violates both halves of the claim.
A response with a `null` close mid-array yields a point with close `0`
(not positive), and a response with an empty `timestamp` array but a
truthy `meta.regularMarketPrice` yields an empty sequence. -/
theorem yahoo_close_zero_or_empty :
    ((processYahooFinanceData
        { timestamp := some [1, 2, 3, 4, 5],
          quote := [{ open_ := [some 10, some 11, none, some 13, some 14],
                      high := [some 10, some 11, none, some 13, some 14],
                      low := [some 10, some 11, none, some 13, some 14],
                      close := [some 10, some 11, none, some 13, some 14],
                      volume := [some 10, some 11, none, some 13, some 14] }],
          meta := { regularMarketPrice := some 14,
                    previousClose := some 13 } }
        "AAPL" (fun _ => "")).map
        (fun d => d.prices.all (fun p => decide (0 < p.close))) =
      Except.ok false) ∧
    ((processYahooFinanceData
        { timestamp := some [], quote := [],
          meta := { regularMarketPrice := some 5, previousClose := some 4 } }
        "AAPL" (fun _ => "")).map (fun d => d.prices.isEmpty) =
      Except.ok true) := ⟨rfl, rfl⟩

/-- C2 (amended): on the Yahoo path every normalized close is non-negative
whenever the response's non-null closes are positive (null entries are
coerced to `0`, so strict positivity and non-emptiness can fail there);
the mock generator with positive `timeRange` yields a non-empty sequence
with strictly positive closes; and the Alpha Vantage path passes each
response close through unvalidated. -/
theorem fallback_close_bounds :
    (∀ (result : YahooResult) (sym : String) (tsISO : Int → String)
        (d : StockData),
      processYahooFinanceData result sym tsISO = .ok d →
      (∀ quotes, result.quote.head? = some quotes →
        ∀ oc ∈ quotes.close, ∀ c, oc = some c → 0 < c) →
      ∀ p ∈ d.prices, 0 ≤ p.close) ∧
    (∀ (rand : Nat → ℚ) (today : Int) (dayISO : Int → String)
        (sym : String) (tr : Int), 1 ≤ tr →
      ∃ d, generateMockStockData rand today dayISO sym tr = .ok d ∧
        d.prices ≠ [] ∧ ∀ p ∈ d.prices, 0 < p.close) ∧
    (∀ (ts : AVSeries) (tr : Int) (sym : String) (d : StockData),
      processAlphaVantageData ts tr sym = .ok d →
      ∀ p ∈ d.prices, ∃ day, (p.date, day) ∈ ts ∧ p.close = day.close) := by
  refine ⟨?_, ?_, ?_⟩
  · intro result sym tsISO d hd hq
    exact buildYahooPrices_ok_close_nonneg tsISO result.quote.head? hq
      (result.timestamp.getD []) 0 d.prices (processYahoo_ok_prices hd)
  · intro rand today dayISO sym tr htr
    obtain ⟨d, hok, hlen, hpos, -⟩ :=
      generateMock_ok rand today dayISO sym tr htr
    refine ⟨d, hok, ?_, ?_⟩
    · intro hc
      rw [hc] at hlen
      simp at hlen
      omega
    · exact fun p hp => lt_of_lt_of_le zero_lt_one (hpos p hp)
  · intro ts tr sym d hd
    exact avBuildPrices_close_from_ts _ ts d.prices (processAV_ok_build hd)

/-- Witness for `fallback_close_bounds`: the null-close fixture has all
closes non-negative, and the mock generator at `timeRange = 7` returns a
non-empty all-positive sequence. -/
theorem fallback_close_bounds_witness :
    ((processYahooFinanceData
        { timestamp := some [1, 2, 3, 4, 5],
          quote := [{ open_ := [some 10, some 11, none, some 13, some 14],
                      high := [some 10, some 11, none, some 13, some 14],
                      low := [some 10, some 11, none, some 13, some 14],
                      close := [some 10, some 11, none, some 13, some 14],
                      volume := [some 10, some 11, none, some 13, some 14] }],
          meta := { regularMarketPrice := some 14,
                    previousClose := some 13 } }
        "AAPL" (fun _ => "")).map
        (fun d => d.prices.all (fun p => decide (0 ≤ p.close))) =
      Except.ok true) ∧
    ((generateMockStockData (fun _ => 1) 0 (fun _ => "d") "A" 7).map
        (fun d => !d.prices.isEmpty &&
          d.prices.all (fun p => decide (0 < p.close))) =
      Except.ok true) := by
  obtain ⟨p1, p2, p3⟩ := fallback_close_bounds
  constructor
  · have hfix : processYahooFinanceData
        { timestamp := some [1, 2, 3, 4, 5],
          quote := [{ open_ := [some 10, some 11, none, some 13, some 14],
                      high := [some 10, some 11, none, some 13, some 14],
                      low := [some 10, some 11, none, some 13, some 14],
                      close := [some 10, some 11, none, some 13, some 14],
                      volume := [some 10, some 11, none, some 13, some 14] }],
          meta := { regularMarketPrice := some 14,
                    previousClose := some 13 } }
        "AAPL" (fun _ => "") =
        .ok ⟨"AAPL",
          [⟨"", 10, 10, 10, 10, 10⟩, ⟨"", 11, 11, 11, 11, 11⟩,
           ⟨"", 0, 0, 0, 0, 0⟩, ⟨"", 13, 13, 13, 13, 13⟩,
           ⟨"", 14, 14, 14, 14, 14⟩], 14, "AAPL Corporation",
          14 - 13⟩ := rfl
    have hall := p1 _ "AAPL" (fun _ => "") _ hfix
      (by
        intro quotes hq oc hoc c hc
        simp only [List.head?, Option.some.injEq] at hq
        subst hq
        fin_cases hoc <;> simp_all <;> exact hc ▸ (by norm_num))
    rw [hfix]
    simp only [Except.map, Except.ok.injEq, List.all_eq_true]
    intro x hx
    exact decide_eq_true (hall x hx)
  · obtain ⟨d, hok, hne, hpos⟩ :=
      p2 (fun _ => 1) 0 (fun _ => "d") "A" 7 (by norm_num)
    rw [hok]
    simp only [Except.map, Except.ok.injEq, Bool.and_eq_true,
      Bool.not_eq_true', List.all_eq_true]
    refine ⟨by simpa using hne, ?_⟩
    intro x hx
    exact decide_eq_true (hpos x hx)

/-! ## C1: the fallback chain never rejects -/

/-- C1 counterexample: with `timeRange = 0` and both remote sources
throwing, the mock generator indexes an empty array and
`fetchStockData` rejects — so the chain is not reject-free for every
`timeRange`. -/
theorem fetchStockData_rejects_zero_range :
    fetchStockData (.error "AV down") (.error "YF down") (fun _ => 0) 0
        (fun _ => "") (fun _ => "") "AAPL" 0 =
      .error "TypeError: cannot read close of undefined" ∧
    (fetchStockData (.error "AV down") (.error "YF down") (fun _ => 0) 0
        (fun _ => "") (fun _ => "") "AAPL" 0).isOk = false := ⟨rfl, rfl⟩

/-- C1 (amended): for every symbol and every positive `timeRange`, if the
Alpha Vantage attempt throws and the Yahoo Finance attempt throws, the
fallback chain invokes the synthetic mock generator and the overall
`fetchStockData` resolves successfully — no source exception reaches the
caller. -/
theorem fetchStockData_fallback_resolves :
    ∀ (avResp : Except String AVResponse) (yfResp : Except String YFResponse)
      (rand : Nat → ℚ) (today : Int) (dayISO tsISO : Int → String)
      (sym : String) (tr : Int) (eA eY : String),
      fetchStockDataAlphaVantage avResp tr sym = .error eA →
      fetchStockDataYahoo yfResp sym tsISO = .error eY →
      1 ≤ tr →
      fetchStockData avResp yfResp rand today dayISO tsISO sym tr =
        generateMockStockData rand today dayISO sym tr ∧
      (fetchStockData avResp yfResp rand today dayISO tsISO sym tr).isOk
        = true := by
  intro avResp yfResp rand today dayISO tsISO sym tr eA eY hA hY htr
  have h1 : fetchStockData avResp yfResp rand today dayISO tsISO sym tr =
      generateMockStockData rand today dayISO sym tr := by
    simp only [fetchStockData, hA, hY]
  refine ⟨h1, ?_⟩
  rw [h1]
  obtain ⟨d, hok, -, -, -⟩ := generateMock_ok rand today dayISO sym tr htr
  rw [hok]
  rfl

/-- Witness for `fetchStockData_fallback_resolves`: both sources throw,
`timeRange = 7`, and the chain resolves with mock data. -/
theorem fetchStockData_fallback_resolves_witness :
    (fetchStockData (.error "AV down") (.error "YF down") (fun _ => 0) 0
        (fun _ => "d") (fun _ => "") "AAPL" 7).isOk = true ∧
    fetchStockData (.error "AV down") (.error "YF down") (fun _ => 0) 0
        (fun _ => "d") (fun _ => "") "AAPL" 7 =
      generateMockStockData (fun _ => 0) 0 (fun _ => "d") "AAPL" 7 := by
  have h := fetchStockData_fallback_resolves (.error "AV down")
    (.error "YF down") (fun _ => 0) 0 (fun _ => "d") (fun _ => "") "AAPL" 7
    "AV down" "YF down" rfl rfl (by norm_num)
  exact ⟨h.2, h.1⟩

end StockCharts
